import Mathlib

/-!
Verification of the RecursiveDevKit document manager (`orcardk.py`).

Documents are modelled as `List Char`.  The Python code manipulates them with a
handful of concrete regular expressions; each one is embedded below as an
executable function with the same matching semantics:

* `splitFirst lit s` — `re.search` for a pattern beginning with the literal
  `lit`: splits `s` at the leftmost occurrence of `lit`.
* `substA lit stop repl s` — `re.sub(lit + ".*?" + stop, repl, s)` with `.`
  not matching a newline: every non-overlapping match (the literal, then the
  shortest run of non-newline characters up to `stop`) is replaced.
* `replA lit repl s` — `re.sub(lit, repl, s)` for a plain literal pattern:
  every non-overlapping occurrence of `lit` is replaced by `repl`.
* `trim` — Python `str.strip()`; `splitNL` — `str.split("\n")`;
  `joinComma` — `", ".join(...)`; `lastTake n` — `xs[-n:]`.
-/

namespace RDK

/-- Boolean list-prefix test (used to model anchored literal matching). -/
def pfx : List Char → List Char → Bool
  | [], _ => true
  | _ :: _, [] => false
  | a :: as, b :: bs => if a = b then pfx as bs else false

/-- Boolean membership test for a character. -/
def hasChar (c : Char) : List Char → Bool
  | [] => false
  | d :: ds => if d = c then true else hasChar c ds

/-- `clashB lit t = true` when matching `lit` against `t ++ s` fails inside
`t` itself, for every continuation `s`. -/
def clashB : List Char → List Char → Bool
  | [], _ => false
  | _ :: _, [] => false
  | a :: as, b :: bs => if a = b then clashB as bs else true

/-- `noHitB lit t = true` when no suffix position of `t` can start a match of
`lit`, regardless of what follows `t`. -/
def noHitB (lit : List Char) : List Char → Bool
  | [] => true
  | c :: cs => clashB lit (c :: cs) && noHitB lit cs

/-- Leftmost occurrence of the literal `lit` in a list: returns the part
before the occurrence and the part after it (`re.search` on a literal). -/
def splitFirst (lit : List Char) : List Char → Option (List Char × List Char)
  | [] => if pfx lit [] then some ([], []) else none
  | c :: cs =>
      if pfx lit (c :: cs) then some ([], (c :: cs).drop lit.length)
      else (splitFirst lit cs).map (fun p => (c :: p.1, p.2))

/-- `scanStop stop s` models the non-greedy `.*?stop` tail of a pattern where
`.` does not match `'\n'`: it finds the shortest prefix of `s` made of
characters that are neither `stop` nor `'\n'`, followed by `stop`, and returns
that prefix together with the rest. -/
def scanStop (stop : Char) : List Char → Option (List Char × List Char)
  | [] => none
  | c :: cs =>
      if c = stop then some ([], cs)
      else if c = '\n' then none
      else (scanStop stop cs).map (fun p => (c :: p.1, p.2))

/-- Anchored match of the pattern `lit ++ ".*?" ++ stop` at the head of `s`;
returns the remainder after the match. -/
def matchAt (lit : List Char) (stop : Char) (s : List Char) : Option (List Char) :=
  if pfx lit s then (scanStop stop (s.drop lit.length)).map (fun p => p.2) else none

/-- Fuel-driven worker for `substA`. -/
def substAGo (lit : List Char) (stop : Char) (repl : List Char) : Nat → List Char → List Char
  | _, [] => []
  | 0, s => s
  | fuel + 1, c :: cs =>
      match matchAt lit stop (c :: cs) with
      | some r => repl ++ substAGo lit stop repl fuel r
      | none => c :: substAGo lit stop repl fuel cs

/-- `re.sub(lit + ".*?" + stop, repl, s)` (no `re.DOTALL`): every
non-overlapping leftmost match is replaced by `repl`. -/
def substA (lit : List Char) (stop : Char) (repl : List Char) (s : List Char) : List Char :=
  substAGo lit stop repl s.length s

/-- Fuel-driven worker for `replA`. -/
def replAGo (lit repl : List Char) : Nat → List Char → List Char
  | _, [] => []
  | 0, s => s
  | fuel + 1, c :: cs =>
      if pfx lit (c :: cs) then repl ++ replAGo lit repl fuel ((c :: cs).drop lit.length)
      else c :: replAGo lit repl fuel cs

/-- `re.sub(lit, repl, s)` for a literal pattern `lit`: every non-overlapping
occurrence is replaced by `repl`. -/
def replA (lit repl : List Char) (s : List Char) : List Char :=
  replAGo lit repl s.length s

/-- Python whitespace as stripped by `str.strip()`. -/
def isWS (c : Char) : Bool :=
  c = ' ' || c = '\t' || c = '\n' || c = '\r' || c = '\x0b' || c = '\x0c'

/-- Python `str.strip()`. -/
def trim (s : List Char) : List Char :=
  ((s.dropWhile isWS).reverse.dropWhile isWS).reverse

/-- Python `str.split("\n")`. -/
def splitNL : List Char → List (List Char)
  | [] => [[]]
  | c :: cs =>
      if c = '\n' then [] :: splitNL cs
      else
        match splitNL cs with
        | [] => [[c]]
        | l :: ls => (c :: l) :: ls

/-- Python `", ".join(xs)`. -/
def joinComma : List (List Char) → List Char
  | [] => []
  | [x] => x
  | x :: y :: rest => x ++ ',' :: ' ' :: joinComma (y :: rest)

/-- Python `xs[-n:]`. -/
def lastTake (n : Nat) (l : List (List Char)) : List (List Char) :=
  l.drop (l.length - n)

/-- Tail of `re.sub(r"^\d+\.\s", "", line)` when `re.match(r"^\d+\.\s", line)`
succeeded: consume the remaining digits, the dot and one whitespace char. -/
def stripNumGo : List Char → Option (List Char)
  | [] => none
  | c :: cs =>
      if c.isDigit then stripNumGo cs
      else if c = '.' then
        match cs with
        | [] => none
        | d :: ds => if isWS d then some ds else none
      else none

/-- Match `r"^\d+\.\s"` at the start of a line; on success return the rest of
the line with that prefix removed. -/
def stripNum : List Char → Option (List Char)
  | [] => none
  | c :: cs => if c.isDigit then stripNumGo cs else none

/-- Python truthiness of an optional string argument (`if arg:`):
`None` and the empty string are falsy. -/
def tval : Option (List Char) → Bool
  | some (_ :: _) => true
  | _ => false

/-- Python `str.lower()` (ASCII case folding). -/
def lowerL (s : List Char) : List Char := s.map Char.toLower

/-- Substring test (`lit in s` in Python). -/
def occursB (lit s : List Char) : Bool := (splitFirst lit s).isSome

/-- Whether an entry string is "tidy": nonempty, no interior newline, and no
leading or trailing whitespace (so Python `strip` leaves it unchanged). -/
def tidy : List Char → Bool
  | [] => false
  | c :: cs => !isWS c && !isWS ((c :: cs).reverse.headI) && !hasChar '\n' (c :: cs)

/-! ## Literal patterns and default strings from `orcardk.py` -/

def litCT : List Char := "- CURRENT TASK: ".toList
def litCC : List Char := "- COMPLETION CRITERIA: ".toList
def litWF : List Char := "- WORKING FILES: ".toList
def litIP : List Char := "- INTEGRATION POINTS: ".toList
def hdCompleted : List Char := "## Completed\n".toList
def hdNext : List Char := "## Next Tasks\n".toList
def hdChal : List Char := "## Challenges\n".toList
def hdDec : List Char := "## Decisions\n".toList
def hdDef : List Char := "## Definition\n".toList
def hdArch : List Char := "## Architecture\n".toList
def hdPrin : List Char := "## Development Principles\n".toList
def litPh : List Char := "## Current Phase: ".toList
def litNP : List Char := "\nProgress: ".toList
def litPr : List Char := "Progress: ".toList
def nlHH : List Char := "\n##".toList
def dash2 : List Char := "- ".toList
def colonSp : List Char := ": ".toList
def nl1 : List Char := ['\n']
def pc1 : List Char := ['%']

def defTask : List Char := "implementation".toList
def defCrit : List Char := "Task complete".toList
def defFiles : List Char := "relevant files".toList
def defInteg : List Char := "related components".toList
def defPhase : List Char := "Current phase".toList
def defArch : List Char := "Initial architecture".toList
def defPrin : List Char := "Modularity, Maintainability".toList
def defChal : List Char := "None identified".toList
def defDec : List Char := "No recent decisions".toList
def defProj : List Char := "Project".toList

/-! ## Field extraction (`update_prompt`, lines 178–281) -/

/-- Model of `re.search(lit + r"(.*?)(?=\n|-|\Z)", doc, re.DOTALL)` followed by
`.strip()`, with a default when the pattern is absent.  The non-greedy group
with that lookahead collects exactly the characters up to the first `'\n'` or
`'-'` after the literal key prefix. -/
def keyedVal (lit dflt : List Char) (doc : List Char) : List Char :=
  match splitFirst lit doc with
  | some p => trim (p.2.takeWhile (fun c => !(c = '\n' || c = '-')))
  | none => dflt

/-- Model of `re.search(header + r"(.*?)(?=\n##|\Z)", doc, re.DOTALL)`: the
section body runs from just after the header line to the first `"\n##"` (or to
the end of the document). -/
def sectionBody (header : List Char) (doc : List Char) : Option (List Char) :=
  (splitFirst header doc).map fun p =>
    match splitFirst nlHH p.2 with
    | some q => q.1
    | none => p.2

/-- Bullet entries of a section body: `strip`, split on newlines, keep lines
starting with `"- "`, and return `line[2:].strip()` for each. -/
def bullets (body : List Char) : List (List Char) :=
  ((splitNL (trim body)).filter (fun l => pfx dash2 l)).map (fun l => trim (l.drop 2))

/-- Like `bullets` but keeping only the text before the first `':'`
(`line[2:].split(":")[0].strip()`). -/
def bulletsKey (body : List Char) : List (List Char) :=
  ((splitNL (trim body)).filter (fun l => pfx dash2 l)).map
    (fun l => trim ((l.drop 2).takeWhile (fun c => !(c = ':'))))

/-- Numbered entries of a section body: lines matching `r"^\d+\.\s"`, with the
number prefix removed and the rest stripped. -/
def numbered (body : List Char) : List (List Char) :=
  (splitNL (trim body)).filterMap (fun l => (stripNum l).map trim)

/-- Model of the backtracking tail `(.*?)\nProgress: (.*?)%` (with `re.DOTALL`)
after the phase label: find the first `"\nProgress: "` that is followed
(anywhere later) by a `'%'`, and split there. -/
def findPS : List Char → Option (List Char × List Char)
  | [] => none
  | c :: cs =>
      if pfx litNP (c :: cs) && hasChar '%' ((c :: cs).drop litNP.length) then
        some ([], (c :: cs).drop litNP.length)
      else (findPS cs).map (fun p => (c :: p.1, p.2))

/-- Model of `re.search(r"## Current Phase: (.*?)\nProgress: (.*?)%", context,
re.DOTALL)`: both groups of the combined pattern, or `none` when the combined
pattern does not match. -/
def phaseMatch (ctx : List Char) : Option (List Char × List Char) :=
  (splitFirst litPh ctx).bind fun p =>
    (findPS p.2).map fun q => (q.1, q.2.takeWhile (fun c => !(c = '%')))

/-- Whether the context document contains the phase label prefix at all. -/
def hasPhaseLabel (ctx : List Char) : Bool := (splitFirst litPh ctx).isSome

/-- Phase label rendered into the prompt: the stripped first group of the
combined pattern, or the default `"Current phase"` when the combined pattern
fails (even if the label line itself is present). -/
def phaseInfoOf (ctx : List Char) : List Char :=
  match phaseMatch ctx with
  | some pm => trim pm.1
  | none => defPhase

/-- `project_info`: `"Project - <stripped Definition body>"`, or `"Project"`. -/
def projectInfoOf (ctx : List Char) : List Char :=
  match sectionBody hdDef ctx with
  | some b => "Project - ".toList ++ trim b
  | none => defProj

/-- `arch_info`: Architecture bullets joined by `", "`. -/
def archInfoOf (ctx : List Char) : List Char :=
  match sectionBody hdArch ctx with
  | some b => joinComma (bullets b)
  | none => defArch

/-- `principles_info`: Development Principles bullets (text before the first
`':'`) joined by `", "`. -/
def principlesInfoOf (ctx : List Char) : List Char :=
  match sectionBody hdPrin ctx with
  | some b => joinComma (bulletsKey b)
  | none => defPrin

/-- `current_task`: the `customFocus` override if truthy, else the
`CURRENT TASK` keyed value. -/
def currentTaskOf (cf : Option (List Char)) (st : List Char) : List Char :=
  if tval cf then cf.getD [] else keyedVal litCT defTask st

def criteriaOf (st : List Char) : List Char := keyedVal litCC defCrit st

def filesOf (st : List Char) : List Char := keyedVal litWF defFiles st

def integrationOf (st : List Char) : List Char := keyedVal litIP defInteg st

/-- `completed_info`: the last 3 Completed bullets joined by `", "`. -/
def completedInfoOf (st : List Char) : List Char :=
  joinComma (lastTake 3 (match sectionBody hdCompleted st with
    | some b => bullets b
    | none => []))

/-- `next_info`: the first 3 Next Tasks numbered entries joined by `", "`. -/
def nextInfoOf (st : List Char) : List Char :=
  joinComma (List.take 3 (match sectionBody hdNext st with
    | some b => numbered b
    | none => []))

/-- `challenge_info`: Challenges bullets (text before `':'`) joined by `", "`;
a body containing `"None yet"` contributes nothing; empty list renders the
default. -/
def challengeInfoOf (st : List Char) : List Char :=
  let cs := match sectionBody hdChal st with
    | some b => if occursB "None yet".toList b then [] else bulletsKey b
    | none => []
  if cs = [] then defChal else joinComma cs

/-- `decision_info`: the last 2 Decisions bullets (text before `':'`) joined
by `", "`, or the default when there are none. -/
def decisionInfoOf (st : List Char) : List Char :=
  let ds := match sectionBody hdDec st with
    | some b => bulletsKey b
    | none => []
  if ds = [] then defDec else joinComma (lastTake 2 ds)

/-! ## Document templates and rendering -/

/-- Shared tail of the generated prompt (identical in `init` and
`update_prompt`). -/
def promptTail : List Char :=
  ("## Implementation Requirements\n1. The implementation should follow the project\x27s development principles\n2. Code should be properly documented with comments\n3. Handle edge cases and potential errors\n4. Integrate well with existing components\n5. Be testable and maintainable\n\nPlease provide:\n1. Implementation code for the current task including:\n   - File paths and full implementation code\n   - Any necessary changes to dependent files\n   - Clear comments explaining key functionality\n\n2. Updated task status for development-state.md:\n   - Brief description of implementation approach\n   - Key implementation details to document\n   - Next logical task to tackle\n\n3. Any architecture updates needed\n\n4. Verification approach:\n   - How to verify the implementation works correctly\n   - Edge cases to test\n   - Integration test approach if applicable\n").toList

/-- The f-string of `update_prompt` (lines 284–329) assembled from the
extracted fields. -/
def renderPrompt (task wf integ crit proj phase prog arch princ comp next chal dec : List Char) :
    List Char :=
  ("Continue developing the project focusing on the following task:\n\n## Current Focus\n- Task: ").toList
    ++ task ++ ("\n- Files: ").toList ++ wf
    ++ ("\n- Integration points: ").toList ++ integ
    ++ ("\n- Completion criteria: ").toList ++ crit
    ++ ("\n\n## Project Context\n- Project: ").toList ++ proj
    ++ ("\n- Current phase: ").toList ++ phase
    ++ ("\n- Progress: ").toList ++ prog
    ++ ("% complete\n- Key architecture: ").toList ++ arch
    ++ ("\n- Development principles: ").toList ++ princ
    ++ ("\n\n## Current State\n- Completed: ").toList ++ comp
    ++ ("\n- Next tasks: ").toList ++ next
    ++ ("\n- Challenges: ").toList ++ chal
    ++ ("\n- Recent decisions: ").toList ++ dec
    ++ ("\n\n").toList ++ promptTail

/-- Pieces of the `reset` template of `update_state` (lines 352–375). -/
def resetA : List Char := "# Development State\n\n## High Priority\n".toList

def resetTask : List Char := "Initialize phase".toList

def resetB : List Char :=
  ("- COMPLETION CRITERIA: Phase initialization complete\n- WORKING FILES: Initial phase files\n- INTEGRATION POINTS: None yet\n\n").toList

def resetC : List Char :=
  ("- Previous phase completion\n\n## Next Tasks\n1. First task in new phase\n   - Files: To be determined\n   - Integration: To be determined\n\n## Challenges\n- None yet\n\n## Decisions\n- Phase transition\n  - Rationale: Previous phase completed\n  - Alternatives: Continue previous phase\n").toList

/-- The fixed document installed by `update_state(reset=True)`. -/
def resetTemplate : List Char :=
  resetA ++ litCT ++ resetTask ++ nl1 ++ resetB ++ hdCompleted ++ resetC

/-- The context document written by `init` (lines 39–66). -/
def contextTemplate (desc phases iphase : List Char) : List Char :=
  ("# Project Context\n\n## Definition\n").toList ++ desc
    ++ ("\n\n## Current Phase: 1/").toList ++ phases ++ (" - ").toList ++ iphase
    ++ ("\nProgress: 0% complete\n\n## Architecture\n- Core system: Initial implementation pending\n  - Base components: To be determined\n- Infrastructure: Initial setup pending\n\n## Dependencies\n- None yet\n\n## Development Principles\n- Modularity\n- Testability\n- Maintainability\n- Clear interfaces\n- Documentation\n\n## Technical Requirements\n- Reliable operation\n- Good performance\n- Proper error handling\n").toList

/-- The state document written by `init` (lines 69–95). -/
def stateTemplate : List Char :=
  ("# Development State\n\n## High Priority\n- CURRENT TASK: Initialize project structure\n- COMPLETION CRITERIA: Repository structure and base files created\n- WORKING FILES: Initial repository setup\n- INTEGRATION POINTS: None yet\n\n## Completed\n- Framework initialization\n\n## Next Tasks\n1. Define initial architecture\n   - Files: architecture documents, diagrams\n   - Integration: Overall system design\n2. Set up core components\n   - Files: base implementation files\n   - Integration: Component interfaces\n\n## Challenges\n- None yet\n\n## Decisions\n- Using RecursiveDevKit framework for development\n  - Rationale: Structured approach to AI-assisted development\n  - Alternatives: Ad-hoc prompting, traditional development\n").toList

/-- The prompt document written by `init` (lines 98–143). -/
def promptTemplate (pn desc phases iphase : List Char) : List Char :=
  ("Continue developing ").toList ++ pn
    ++ (" focusing on the following task:\n\n## Current Focus\n- Task: Initialize project structure\n- Files: Initial repository setup\n- Integration points: None yet\n- Completion criteria: Repository structure and base files created\n\n## Project Context\n- Project: ").toList
    ++ pn ++ (" - ").toList ++ desc
    ++ ("\n- Current phase: 1/").toList ++ phases ++ (" - ").toList ++ iphase
    ++ ("\n- Progress: 0% complete\n- Key architecture: Initial implementation pending\n- Development principles: Modularity, Testability, Maintainability\n\n## Current State\n- Completed: Framework initialization\n- Next tasks: Define initial architecture, Set up core components\n- Challenges: None yet\n- Recent decisions: Using RecursiveDevKit framework for development\n\n").toList
    ++ promptTail

/-! ## The three update operations on document contents -/

/-- Pure content transformation of `update_state` (lines 338–409): optional
reset to the fixed template, then the `task_completed` bullet insertion
(`re.sub` on the literal `"## Completed\n"`), then the keyed-line
replacements, each an `re.sub` over the whole document. -/
def update_state_content (tc nt cr fl ig : Option (List Char)) (reset : Bool)
    (s0 : List Char) : List Char :=
  let s1 := if reset then resetTemplate else s0
  let s2 := if tval tc then
      replA hdCompleted
        (hdCompleted ++ dash2 ++ keyedVal litCT defTask s1 ++ colonSp ++ tc.getD [] ++ nl1) s1
    else s1
  if tval nt then
    let s3 := substA litCT '\n' (litCT ++ nt.getD [] ++ nl1) s2
    let s4 := if tval cr then substA litCC '\n' (litCC ++ cr.getD [] ++ nl1) s3 else s3
    let s5 := if tval fl then substA litWF '\n' (litWF ++ fl.getD [] ++ nl1) s4 else s4
    if tval ig then substA litIP '\n' (litIP ++ ig.getD [] ++ nl1) s5 else s5
  else s2

/-- Pure content transformation of `update_phase` (lines 418–443): two
independent `re.sub` replacements over the whole context document. -/
def update_phase_content (np pr : Option (List Char)) (c0 : List Char) : List Char :=
  let c1 := if tval np then substA litPh '\n' (litPh ++ np.getD [] ++ nl1) c0 else c0
  if tval pr then substA litPr '%' (litPr ++ pr.getD [] ++ pc1) c1 else c1

/-- Pure content production of `update_prompt` (lines 163–336).  When the
combined phase/progress pattern fails, the local variable `progress` is never
assigned and the render f-string raises `NameError`; this is modelled as
`none` (no prompt content is produced). -/
def update_prompt_content (cf : Option (List Char)) (ctx st : List Char) :
    Option (List Char) :=
  match phaseMatch ctx with
  | none => none
  | some pm =>
      some (renderPrompt (currentTaskOf cf st) (filesOf st) (integrationOf st)
        (criteriaOf st) (projectInfoOf ctx) (trim pm.1) (trim pm.2)
        (archInfoOf ctx) (principlesInfoOf ctx) (completedInfoOf st)
        (nextInfoOf st) (challengeInfoOf st) (decisionInfoOf st))

/-! ## File-system level operations -/

/-- The three project files; `none` means the file does not exist. -/
structure FS where
  ctx : Option (List Char)
  st : Option (List Char)
  pr : Option (List Char)
deriving DecidableEq

/-- Result of an operation: the new file system and whether the operation
aborted early with a printed warning. -/
structure OpOut where
  fs : FS
  warned : Bool
deriving DecidableEq

/-- `update_prompt` at the file level: requires both context and state files;
on success writes only the prompt file; `none` models the `NameError` raise
(no write happens then either, but the process errors out). -/
def update_prompt (cf : Option (List Char)) (fs : FS) : Option OpOut :=
  match fs.ctx, fs.st with
  | some c, some s =>
      (update_prompt_content cf c s).map (fun p => ⟨⟨some c, some s, some p⟩, false⟩)
  | _, _ => some ⟨fs, true⟩

/-- `update_state` at the file level: requires the state file. -/
def update_state (tc nt cr fl ig : Option (List Char)) (reset : Bool) (fs : FS) : OpOut :=
  match fs.st with
  | some s => ⟨⟨fs.ctx, some (update_state_content tc nt cr fl ig reset s), fs.pr⟩, false⟩
  | none => ⟨fs, true⟩

/-- `update_phase` at the file level: requires the context file. -/
def update_phase (np pr : Option (List Char)) (fs : FS) : OpOut :=
  match fs.ctx with
  | some c => ⟨⟨some (update_phase_content np pr c), fs.st, fs.pr⟩, false⟩
  | none => ⟨fs, true⟩

/-- The three fresh documents written by `init`. -/
def initFiles (pn desc phases iphase : List Char) : FS :=
  ⟨some (contextTemplate desc phases iphase), some stateTemplate,
    some (promptTemplate pn desc phases iphase)⟩

/-- `init` (lines 29–161): when any of the three files exists, the user is
asked for confirmation, and the operation aborts (leaving every file
untouched) unless the lower-cased answer is exactly `"y"`. -/
def init (pn desc phases iphase answer : List Char) (fs : FS) : FS :=
  if fs.ctx.isSome || fs.st.isSome || fs.pr.isSome then
    if lowerL answer = ['y'] then initFiles pn desc phases iphase else fs
  else initFiles pn desc phases iphase

/-! ## Lemmas about the matching primitives -/

theorem pfx_append (l r : List Char) : pfx l (l ++ r) = true := by
  induction l with
  | nil => rfl
  | cons a as ih => simp [pfx, ih]

theorem pfx_eq_append (lit u : List Char) (h : pfx lit u = true) :
    u = lit ++ u.drop lit.length := by
  induction lit generalizing u with
  | nil => simp
  | cons a as ih =>
    cases u with
    | nil => simp [pfx] at h
    | cons b bs =>
      by_cases hab : a = b
      · subst hab
        simp only [pfx, if_pos rfl] at h
        simpa using ih bs h
      · simp [pfx, hab] at h

theorem clashB_pfx (lit t s : List Char) (h : clashB lit t = true) :
    pfx lit (t ++ s) = false := by
  induction lit generalizing t with
  | nil => simp [clashB] at h
  | cons a as ih =>
    cases t with
    | nil => simp [clashB] at h
    | cons b bs =>
      by_cases hab : a = b
      · subst hab
        simp only [clashB, if_pos rfl] at h
        simpa [pfx] using ih bs h
      · simp [pfx, hab]

theorem noHitB_head (h : Char) (hs t : List Char) (ht : ∀ c ∈ t, c ≠ h) :
    noHitB (h :: hs) t = true := by
  induction t with
  | nil => rfl
  | cons b bs ih =>
    have hb : ¬ h = b := fun hh => ht b (by simp) hh.symm
    have hcl : clashB (h :: hs) (b :: bs) = true := by
      simp only [clashB, if_neg hb]
    simp [noHitB, hcl, ih (fun c hc => ht c (by simp [hc]))]

theorem splitFirst_hit (lit s : List Char) : splitFirst lit (lit ++ s) = some ([], s) := by
  cases lit with
  | nil =>
    cases s with
    | nil => rfl
    | cons c cs => simp [splitFirst, pfx]
  | cons a as =>
    have hp : pfx (a :: as) ((a :: as) ++ s) = true := pfx_append _ _
    simp only [List.cons_append] at hp ⊢
    simp only [splitFirst, if_pos hp]
    simp [List.drop_left as s]

theorem splitFirst_miss (lit : List Char) (c : Char) (cs : List Char)
    (h : pfx lit (c :: cs) = false) :
    splitFirst lit (c :: cs) = (splitFirst lit cs).map (fun p => (c :: p.1, p.2)) := by
  simp [splitFirst, h]

theorem splitFirst_skip (lit t s : List Char) (h : noHitB lit t = true) :
    splitFirst lit (t ++ s) = (splitFirst lit s).map (fun p => (t ++ p.1, p.2)) := by
  induction t with
  | nil => cases hsp : splitFirst lit s <;> simp [hsp]
  | cons c cs ih =>
    simp only [noHitB, Bool.and_eq_true] at h
    have hp : pfx lit (c :: (cs ++ s)) = false := by
      simpa using clashB_pfx lit (c :: cs) s h.1
    rw [List.cons_append, splitFirst_miss lit c (cs ++ s) hp, ih h.2]
    cases hsp : splitFirst lit s <;> simp [hsp]

theorem splitFirst_none (hd : Char) (hs t : List Char) (h : noHitB (hd :: hs) t = true) :
    splitFirst (hd :: hs) t = none := by
  induction t with
  | nil => rfl
  | cons c cs ih =>
    simp only [noHitB, Bool.and_eq_true] at h
    have hp : pfx (hd :: hs) (c :: cs) = false := by
      have := clashB_pfx (hd :: hs) (c :: cs) [] h.1
      simpa using this
    rw [splitFirst_miss _ _ _ hp, ih h.2]
    rfl

theorem splitFirst_sub (lit s : List Char) (p : List Char × List Char)
    (h : splitFirst lit s = some p) : s = p.1 ++ lit ++ p.2 := by
  induction s generalizing p with
  | nil =>
    cases lit with
    | nil =>
      simp [splitFirst, pfx] at h
      simp [← h]
    | cons a as => simp [splitFirst, pfx] at h
  | cons c cs ih =>
    by_cases hp : pfx lit (c :: cs) = true
    · simp only [splitFirst, if_pos hp] at h
      have hp2 : p = ([], List.drop lit.length (c :: cs)) := by simpa using h.symm
      subst hp2
      simpa using pfx_eq_append lit (c :: cs) hp
    · rw [splitFirst_miss _ _ _ (by simpa using hp)] at h
      cases hq : splitFirst lit cs with
      | none => rw [hq] at h; simp at h
      | some q =>
        rw [hq] at h
        have hp2 : p = (c :: q.1, q.2) := by simpa using h.symm
        subst hp2
        have := ih q hq
        simp [this]

/-! ## Lemmas about `substA` (wildcard substitution) -/

theorem scanStop_pass (stop : Char) (v s : List Char)
    (hv : ∀ c ∈ v, c ≠ stop ∧ c ≠ '\n') :
    scanStop stop (v ++ stop :: s) = some (v, s) := by
  induction v with
  | nil => simp [scanStop]
  | cons c cs ih =>
    have hc := hv c (by simp)
    simp [scanStop, hc.1, hc.2, ih (fun x hx => hv x (by simp [hx]))]

theorem scanStop_len (stop : Char) (s : List Char) (p : List Char × List Char)
    (h : scanStop stop s = some p) : p.2.length < s.length := by
  induction s generalizing p with
  | nil => simp [scanStop] at h
  | cons c cs ih =>
    by_cases h1 : c = stop
    · simp only [scanStop, if_pos h1] at h
      have hp : p = ([], cs) := by simpa using h.symm
      subst hp
      simp
    · by_cases h2 : c = '\n'
      · subst h2
        simp [scanStop, h1] at h
      · simp only [scanStop, if_neg h1, if_neg h2] at h
        cases hq : scanStop stop cs with
        | none => rw [hq] at h; simp at h
        | some q =>
          rw [hq] at h
          have hp : p = (c :: q.1, q.2) := by simpa using h.symm
          subst hp
          have := ih q hq
          simp only [List.length_cons]
          omega

theorem matchAt_len (lit : List Char) (stop : Char) (s r : List Char)
    (h : matchAt lit stop s = some r) : r.length < s.length := by
  unfold matchAt at h
  by_cases hp : pfx lit s = true
  · rw [if_pos hp] at h
    cases hq : scanStop stop (s.drop lit.length) with
    | none => rw [hq] at h; simp at h
    | some q =>
      rw [hq] at h
      have hr : r = q.2 := by simpa using h.symm
      subst hr
      have h1 := scanStop_len stop _ q hq
      have h2 : (s.drop lit.length).length ≤ s.length := by
        simp [List.length_drop]
      omega
  · rw [if_neg hp] at h; simp at h

theorem substAGo_cons (lit : List Char) (stop : Char) (repl : List Char)
    (f : Nat) (c : Char) (cs : List Char) :
    substAGo lit stop repl (f + 1) (c :: cs) =
      match matchAt lit stop (c :: cs) with
      | some r => repl ++ substAGo lit stop repl f r
      | none => c :: substAGo lit stop repl f cs := rfl

theorem substAGo_succ (lit : List Char) (stop : Char) (repl : List Char) :
    ∀ (f : Nat) (s : List Char), s.length ≤ f →
      substAGo lit stop repl (f + 1) s = substAGo lit stop repl f s := by
  intro f
  induction f with
  | zero =>
    intro s hs
    have hnil : s = [] := List.length_eq_zero.mp (Nat.le_zero.mp hs)
    subst hnil; rfl
  | succ f ih =>
    intro s hs
    cases s with
    | nil => rfl
    | cons c cs =>
      simp only [List.length_cons, Nat.add_le_add_iff_right] at hs
      rw [substAGo_cons, substAGo_cons]
      cases hm : matchAt lit stop (c :: cs) with
      | some r =>
        have hr : r.length ≤ f := by
          have := matchAt_len _ _ _ _ hm
          simp only [List.length_cons] at this
          omega
        simp only [ih r hr]
      | none =>
        simp only [ih cs hs]

theorem substAGo_ge (lit : List Char) (stop : Char) (repl : List Char) :
    ∀ (f : Nat) (s : List Char), s.length ≤ f →
      substAGo lit stop repl f s = substA lit stop repl s := by
  intro f
  induction f with
  | zero =>
    intro s hs
    have hnil : s = [] := List.length_eq_zero.mp (Nat.le_zero.mp hs)
    subst hnil; rfl
  | succ f ih =>
    intro s hs
    by_cases h : s.length ≤ f
    · rw [substAGo_succ _ _ _ f s h, ih s h]
    · have hl : s.length = f + 1 := by omega
      unfold substA
      rw [hl]

theorem substA_cons_none (lit : List Char) (stop : Char) (repl : List Char)
    (c : Char) (cs : List Char) (h : matchAt lit stop (c :: cs) = none) :
    substA lit stop repl (c :: cs) = c :: substA lit stop repl cs := by
  unfold substA
  simp only [List.length_cons]
  rw [substAGo_cons, h]

theorem substA_cons_some (lit : List Char) (stop : Char) (repl : List Char)
    (c : Char) (cs r : List Char) (h : matchAt lit stop (c :: cs) = some r) :
    substA lit stop repl (c :: cs) = repl ++ substA lit stop repl r := by
  unfold substA
  simp only [List.length_cons]
  rw [substAGo_cons, h]
  have hr : r.length ≤ cs.length := by
    have := matchAt_len _ _ _ _ h
    simp only [List.length_cons] at this
    omega
  show repl ++ substAGo lit stop repl cs.length r = repl ++ substAGo lit stop repl r.length r
  rw [substAGo_ge _ _ _ cs.length r hr, substAGo_ge _ _ _ r.length r le_rfl]

theorem substA_nil (lit : List Char) (stop : Char) (repl : List Char) :
    substA lit stop repl [] = [] := rfl

theorem substA_skip (lit : List Char) (stop : Char) (repl t s : List Char)
    (h : noHitB lit t = true) :
    substA lit stop repl (t ++ s) = t ++ substA lit stop repl s := by
  induction t with
  | nil => simp
  | cons c cs ih =>
    simp only [noHitB, Bool.and_eq_true] at h
    have hp : pfx lit (c :: (cs ++ s)) = false := by
      simpa using clashB_pfx lit (c :: cs) s h.1
    have hm : matchAt lit stop (c :: (cs ++ s)) = none := by
      unfold matchAt
      rw [if_neg (by simp [hp])]
    rw [List.cons_append, substA_cons_none _ _ _ _ _ hm, ih h.2]
    rfl

theorem substA_all (lit : List Char) (stop : Char) (repl t : List Char)
    (h : noHitB lit t = true) : substA lit stop repl t = t := by
  have := substA_skip lit stop repl t [] h
  simpa [substA_nil] using this

theorem substA_hit (lit : List Char) (stop : Char) (repl v s : List Char)
    (hl : lit ≠ []) (hv : ∀ c ∈ v, c ≠ stop ∧ c ≠ '\n') :
    substA lit stop repl (lit ++ (v ++ stop :: s)) = repl ++ substA lit stop repl s := by
  obtain ⟨a, as, rfl⟩ := List.exists_cons_of_ne_nil hl
  have hm : matchAt (a :: as) stop (a :: (as ++ (v ++ stop :: s))) = some s := by
    unfold matchAt
    have hp : pfx (a :: as) ((a :: as) ++ (v ++ stop :: s)) = true := pfx_append _ _
    simp only [List.cons_append] at hp
    rw [if_pos hp]
    have hd : (a :: (as ++ (v ++ stop :: s))).drop (a :: as).length = v ++ stop :: s := by
      simp
    rw [hd, scanStop_pass stop v s hv]
    rfl
  rw [List.cons_append, substA_cons_some _ _ _ _ _ _ hm]

/-! ## Lemmas about `replA` (literal substitution) -/

theorem replAGo_cons (lit repl : List Char) (f : Nat) (c : Char) (cs : List Char) :
    replAGo lit repl (f + 1) (c :: cs) =
      if pfx lit (c :: cs) then repl ++ replAGo lit repl f ((c :: cs).drop lit.length)
      else c :: replAGo lit repl f cs := rfl

theorem replAGo_succ (a : Char) (as repl : List Char) :
    ∀ (f : Nat) (s : List Char), s.length ≤ f →
      replAGo (a :: as) repl (f + 1) s = replAGo (a :: as) repl f s := by
  intro f
  induction f with
  | zero =>
    intro s hs
    have hnil : s = [] := List.length_eq_zero.mp (Nat.le_zero.mp hs)
    subst hnil; rfl
  | succ f ih =>
    intro s hs
    cases s with
    | nil => rfl
    | cons c cs =>
      simp only [List.length_cons, Nat.add_le_add_iff_right] at hs
      rw [replAGo_cons, replAGo_cons]
      by_cases hp : pfx (a :: as) (c :: cs) = true
      · have hd : ((c :: cs).drop (a :: as).length).length ≤ f := by
          simp only [List.length_drop, List.length_cons]
          omega
        rw [if_pos hp, if_pos hp, ih _ hd]
      · rw [if_neg hp, if_neg hp, ih cs hs]

theorem replAGo_ge (a : Char) (as repl : List Char) :
    ∀ (f : Nat) (s : List Char), s.length ≤ f →
      replAGo (a :: as) repl f s = replA (a :: as) repl s := by
  intro f
  induction f with
  | zero =>
    intro s hs
    have hnil : s = [] := List.length_eq_zero.mp (Nat.le_zero.mp hs)
    subst hnil; rfl
  | succ f ih =>
    intro s hs
    by_cases h : s.length ≤ f
    · rw [replAGo_succ _ _ _ f s h, ih s h]
    · have hl : s.length = f + 1 := by omega
      unfold replA
      rw [hl]

theorem replA_nil (lit repl : List Char) : replA lit repl [] = [] := rfl

theorem replA_cons_miss (a : Char) (as repl : List Char) (c : Char) (cs : List Char)
    (h : pfx (a :: as) (c :: cs) = false) :
    replA (a :: as) repl (c :: cs) = c :: replA (a :: as) repl cs := by
  unfold replA
  simp only [List.length_cons]
  rw [replAGo_cons, if_neg (by simp [h])]

theorem replA_hit (a : Char) (as repl s : List Char) :
    replA (a :: as) repl ((a :: as) ++ s) = repl ++ replA (a :: as) repl s := by
  have hp : pfx (a :: as) (a :: (as ++ s)) = true := by
    have := pfx_append (a :: as) s
    simpa using this
  have h1 : replA (a :: as) repl ((a :: as) ++ s)
      = replAGo (a :: as) repl ((as ++ s).length + 1) (a :: (as ++ s)) := rfl
  rw [h1, replAGo_cons, if_pos hp]
  have hd : (a :: (as ++ s)).drop (a :: as).length = s := by
    simp
  rw [hd]
  have hs : s.length ≤ (as ++ s).length := by simp
  rw [replAGo_ge _ _ _ _ s hs]

theorem replA_skip (a : Char) (as repl t s : List Char) (h : noHitB (a :: as) t = true) :
    replA (a :: as) repl (t ++ s) = t ++ replA (a :: as) repl s := by
  induction t with
  | nil => simp
  | cons c cs ih =>
    simp only [noHitB, Bool.and_eq_true] at h
    have hp : pfx (a :: as) (c :: (cs ++ s)) = false := by
      simpa using clashB_pfx (a :: as) (c :: cs) s h.1
    rw [List.cons_append, replA_cons_miss _ _ _ _ _ hp, ih h.2]
    rfl

theorem replA_all (a : Char) (as repl t : List Char) (h : noHitB (a :: as) t = true) :
    replA (a :: as) repl t = t := by
  have := replA_skip a as repl t [] h
  simpa [replA_nil] using this

/-! ## Lemmas about `trim`, `splitNL`, `takeWhile`, `hasChar` -/

theorem hasChar_iff (c : Char) (t : List Char) : hasChar c t = true ↔ c ∈ t := by
  induction t with
  | nil => simp [hasChar]
  | cons d ds ih =>
    by_cases hdc : d = c
    · subst hdc
      simp [hasChar]
    · simp only [hasChar, if_neg hdc, ih, List.mem_cons]
      constructor
      · exact fun h => Or.inr h
      · rintro (h | h)
        · exact absurd h.symm hdc
        · exact h

theorem hasChar_false (c : Char) (t : List Char) (h : hasChar c t = false) : c ∉ t := by
  intro hmem
  rw [← hasChar_iff] at hmem
  rw [h] at hmem
  exact Bool.false_ne_true hmem

theorem takeWhile_seg (p : Char → Bool) (v : List Char) (c : Char) (s : List Char)
    (hv : ∀ x ∈ v, p x = true) (hc : p c = false) :
    List.takeWhile p (v ++ c :: s) = v := by
  induction v with
  | nil => simp [List.takeWhile_cons, hc]
  | cons a v' ih =>
    have ha := hv a (by simp)
    simp [List.takeWhile_cons, ha, ih (fun x hx => hv x (by simp [hx]))]

theorem takeWhile_all (p : Char → Bool) (v : List Char) (hv : ∀ x ∈ v, p x = true) :
    List.takeWhile p v = v := by
  induction v with
  | nil => rfl
  | cons a v' ih =>
    have ha := hv a (by simp)
    simp [List.takeWhile_cons, ha, ih (fun x hx => hv x (by simp [hx]))]

theorem tidy_spec (t : List Char) (h : tidy t = true) :
    t ≠ [] ∧ isWS t.headI = false ∧ isWS t.reverse.headI = false
      ∧ hasChar '\n' t = false := by
  cases t with
  | nil => simp [tidy] at h
  | cons c cs =>
    simp only [tidy, Bool.and_eq_true, Bool.not_eq_true'] at h
    exact ⟨by simp, by simpa using h.1.1, by simpa using h.1.2, h.2⟩

theorem dropWhile_nows (t r : List Char) (hne : t ≠ []) (hh : isWS t.headI = false) :
    List.dropWhile isWS (t ++ r) = t ++ r := by
  cases t with
  | nil => exact absurd rfl hne
  | cons c cs =>
    simp only [List.headI] at hh
    simp [List.dropWhile_cons, hh]

theorem dropWhile_nows_self (t : List Char) (hne : t ≠ []) (hh : isWS t.headI = false) :
    List.dropWhile isWS t = t := by
  have := dropWhile_nows t [] hne hh
  simpa using this

theorem trim_tidy (t : List Char) (h : tidy t = true) : trim t = t := by
  obtain ⟨hne, hh, hr, -⟩ := tidy_spec t h
  unfold trim
  rw [dropWhile_nows_self t hne hh]
  rw [dropWhile_nows_self t.reverse (by simpa using hne) hr]
  simp

theorem trim_append_nl (t : List Char) (h : tidy t = true) : trim (t ++ ['\n']) = t := by
  obtain ⟨hne, hh, hr, -⟩ := tidy_spec t h
  unfold trim
  rw [dropWhile_nows t ['\n'] hne hh]
  have hrev : (t ++ ['\n']).reverse = '\n' :: t.reverse := by simp
  rw [hrev, List.dropWhile_cons]
  rw [if_pos (by decide : isWS '\n' = true)]
  rw [dropWhile_nows_self t.reverse (by simpa using hne) hr]
  simp

theorem mem_trim (x : Char) (t : List Char) (h : x ∈ trim t) : x ∈ t := by
  unfold trim at h
  rw [List.mem_reverse] at h
  have h1 : x ∈ (List.dropWhile isWS t).reverse := (List.dropWhile_sublist _).mem h
  rw [List.mem_reverse] at h1
  exact (List.dropWhile_sublist _).mem h1

theorem splitNL_all (t : List Char) (h : hasChar '\n' t = false) : splitNL t = [t] := by
  induction t with
  | nil => rfl
  | cons c cs ih =>
    by_cases hc : c = '\n'
    · subst hc
      simp [hasChar] at h
    · simp only [hasChar, if_neg hc] at h
      simp [splitNL, hc, ih h]

theorem splitNL_seg (t s : List Char) (h : hasChar '\n' t = false) :
    splitNL (t ++ '\n' :: s) = t :: splitNL s := by
  induction t with
  | nil => simp [splitNL]
  | cons c cs ih =>
    by_cases hc : c = '\n'
    · subst hc
      simp [hasChar] at h
    · simp only [hasChar, if_neg hc] at h
      rw [List.cons_append]
      simp only [splitNL, if_neg hc, ih h]

theorem tval_some (v : List Char) (h : v ≠ []) : tval (some v) = true := by
  cases v with
  | nil => exact absurd rfl h
  | cons c cs => rfl

theorem tval_none : tval none = false := rfl

theorem substA_miss_char (lit : List Char) (stop : Char) (repl : List Char)
    (c : Char) (s : List Char) (h : clashB lit [c] = true) :
    substA lit stop repl (c :: s) = c :: substA lit stop repl s := by
  have hp : pfx lit (c :: s) = false := by
    have := clashB_pfx lit [c] s h
    simpa using this
  have hm : matchAt lit stop (c :: s) = none := by
    unfold matchAt
    rw [if_neg (by simp [hp])]
  exact substA_cons_none _ _ _ _ _ hm

theorem replA_miss_char (a : Char) (as repl : List Char) (c : Char) (s : List Char)
    (h : clashB (a :: as) [c] = true) :
    replA (a :: as) repl (c :: s) = c :: replA (a :: as) repl s := by
  have hp : pfx (a :: as) (c :: s) = false := by
    have := clashB_pfx (a :: as) [c] s h
    simpa using this
  exact replA_cons_miss _ _ _ _ _ hp

theorem splitFirst_miss_char (lit : List Char) (c : Char) (s : List Char)
    (h : clashB lit [c] = true) :
    splitFirst lit (c :: s) = (splitFirst lit s).map (fun p => (c :: p.1, p.2)) := by
  apply splitFirst_miss
  have := clashB_pfx lit [c] s h
  simpa using this

theorem findPS_none (s : List Char) (h : hasChar '%' s = false) : findPS s = none := by
  induction s with
  | nil => rfl
  | cons c cs ih =>
    have hcs : hasChar '%' cs = false := by
      by_cases hc : c = '%'
      · subst hc; simp [hasChar] at h
      · simpa [hasChar, hc] using h
    have hdrop : hasChar '%' (List.drop litNP.length (c :: cs)) = false := by
      by_cases hb : hasChar '%' (List.drop litNP.length (c :: cs)) = true
      · exfalso
        rw [hasChar_iff] at hb
        have hmem : '%' ∈ c :: cs := (List.drop_sublist _ _).mem hb
        rw [← hasChar_iff, h] at hmem
        exact Bool.false_ne_true hmem
      · simpa using hb
    have hcond : ¬ ((pfx litNP (c :: cs) && hasChar '%' (List.drop litNP.length (c :: cs))) = true) := by
      simp [hdrop]
    simp only [findPS, if_neg hcond, ih hcs]
    rfl

/-- Generic fact used for C10: a keyed-value extraction never returns a string
containing `'-'` when its default does not contain one. -/
theorem keyedVal_no_dash (lit dflt st : List Char) (hd : '-' ∉ dflt) :
    '-' ∉ keyedVal lit dflt st := by
  unfold keyedVal
  cases hsp : splitFirst lit st with
  | none => exact hd
  | some p =>
    intro hmem
    have h1 := mem_trim _ _ hmem
    have h2 := List.mem_takeWhile_imp h1
    simp at h2

/-! ## Claims -/

/-- C5: starting from any existing state document, calling `UpdateState` with
`reset=true` and no other arguments twice in a row produces byte-identical
state-document output both times: the second call's output equals the first
call's output. -/
theorem C5_reset_idempotent (s0 : List Char) :
    update_state_content none none none none none true
        (update_state_content none none none none none true s0)
      = update_state_content none none none none none true s0 := rfl

/-- C9: the prompt content produced by `RegeneratePrompt` is a function only of
the context file content, the state file content, and the `customFocus`
argument; the prompt file's prior content (present or absent, with any bytes)
is never read, so two runs with identical context/state/focus produce
identical results, including the written prompt document. -/
theorem C9_prompt_write_only (c s : List Char) (p1 p2 : Option (List Char))
    (cf : Option (List Char)) :
    update_prompt cf ⟨some c, some s, p1⟩ = update_prompt cf ⟨some c, some s, p2⟩ := rfl

/-- C8: whenever a required document is absent (context or state for
`RegeneratePrompt`; state for `UpdateState`; context for `UpdatePhase`), the
operation returns normally with the warning flag set and the file system
completely unchanged — no file is written on this path. -/
theorem C8_missing_file_no_write (cf tc nt cr fl ig np prg : Option (List Char))
    (reset : Bool) (fs : FS) :
    (fs.ctx = none ∨ fs.st = none → update_prompt cf fs = some ⟨fs, true⟩) ∧
    (fs.st = none → update_state tc nt cr fl ig reset fs = ⟨fs, true⟩) ∧
    (fs.ctx = none → update_phase np prg fs = ⟨fs, true⟩) := by
  obtain ⟨c, s, p⟩ := fs
  refine ⟨?_, ?_, ?_⟩
  · intro h
    cases c with
    | none => rfl
    | some c =>
      cases s with
      | none => rfl
      | some s =>
        exfalso
        rcases h with h | h <;> simp at h
  · intro h
    cases s with
    | none => rfl
    | some s => simp at h
  · intro h
    cases c with
    | none => rfl
    | some c => simp at h

/-- Witness for C8 at concrete file systems with a missing context or state
document. -/
theorem C8_missing_file_no_write_witness :
    update_prompt none ⟨none, some ['s'], none⟩ = some ⟨⟨none, some ['s'], none⟩, true⟩ ∧
    update_state none none none none none false ⟨some ['c'], none, none⟩
      = ⟨⟨some ['c'], none, none⟩, true⟩ ∧
    update_phase none none ⟨none, some ['s'], some ['p']⟩
      = ⟨⟨none, some ['s'], some ['p']⟩, true⟩ := by
  refine ⟨?_, ?_, ?_⟩
  · exact (C8_missing_file_no_write none none none none none none none none false
      ⟨none, some ['s'], none⟩).1 (Or.inl rfl)
  · exact (C8_missing_file_no_write none none none none none none none none false
      ⟨some ['c'], none, none⟩).2.1 rfl
  · exact (C8_missing_file_no_write none none none none none none none none false
      ⟨none, some ['s'], some ['p']⟩).2.2 rfl

set_option maxRecDepth 8000 in
/-- C2 counterexample: with `reset=true` and `taskCompleted="X"`, the written
state document is not the fixed reset template — the `taskCompleted` patch is
applied to the template rather than being ignored. -/
theorem C2_counterexample :
    update_state_content (some ['X']) none none none none true "old".toList
      ≠ resetTemplate := by
  decide

set_option maxRecDepth 8000 in
/-- C2 amended: `reset=true` discards the prior document content and installs
the fixed reset template, but the other parameters are *not* ignored — the
`taskCompleted` and `nextTask` (and criteria/files/integration) patches are
then applied to the template.  First conjunct: the result never depends on the
prior content.  Second conjunct: with `taskCompleted="X"` and `nextTask="Y"`
the written document is the template with the new Completed bullet inserted
and the CURRENT TASK line rewritten. -/
theorem C2_amended_reset_then_patches :
    (∀ (s0 : List Char) (tc nt cr fl ig : Option (List Char)),
      update_state_content tc nt cr fl ig true s0
        = update_state_content tc nt cr fl ig true resetTemplate) ∧
    update_state_content (some ['X']) (some ['Y']) none none none true "old".toList
      = resetA ++ litCT ++ ['Y'] ++ nl1 ++ resetB ++ hdCompleted
          ++ dash2 ++ resetTask ++ colonSp ++ ['X'] ++ nl1 ++ resetC := by
  constructor
  · intro s0 tc nt cr fl ig
    rfl
  · decide

/-- C7 counterexample: with all three files present, answering `"Y"` — which
is "anything other than `'y'`" — does *not* abort: the files are overwritten,
because the code lower-cases the answer before comparing with `"y"`. -/
theorem C7_counterexample :
    init ['p'] ['d'] ['3'] ['i'] ['Y'] ⟨some ['a'], some ['b'], some ['c']⟩
      ≠ ⟨some ['a'], some ['b'], some ['c']⟩ ∧ (['Y'] : List Char) ≠ ['y'] := by
  refine ⟨?_, by decide⟩
  decide

/-- C7 amended: when all three target files exist and the *lower-cased*
confirmation answer is not `"y"`, `init` aborts with no side effects: the file
system is returned byte-identically unchanged. -/
theorem C7_amended_decline_no_write (pn desc ph ip ans : List Char) (fs : FS)
    (h1 : fs.ctx.isSome = true) (_h2 : fs.st.isSome = true) (_h3 : fs.pr.isSome = true)
    (hans : lowerL ans ≠ ['y']) :
    init pn desc ph ip ans fs = fs := by
  unfold init
  rw [if_pos (by simp [h1]), if_neg hans]

/-- Witness for C7 amended: declining with `"n"` leaves a concrete file system
unchanged. -/
theorem C7_amended_decline_no_write_witness :
    init ['p'] ['d'] ['3'] ['i'] ['n'] ⟨some ['a'], some ['b'], some ['c']⟩
      = ⟨some ['a'], some ['b'], some ['c']⟩ :=
  C7_amended_decline_no_write ['p'] ['d'] ['3'] ['i'] ['n'] _ rfl rfl rfl (by decide)

/-- C3: the progress percentage is only extracted through the combined
phase-and-progress pattern.  First conjunct: whenever a context document has
the phase label but the combined pattern fails, the phase info falls back to
its default `"Current phase"` even though the label is present, and the
downstream render fails (no prompt content is produced, modelling the
`NameError` on the unassigned `progress` variable).  Second conjunct: a
missing progress value — here, no `'%'` anywhere in the document — always
makes the combined pattern fail. -/
theorem C3_combined_phase_progress :
    (∀ (ctx st : List Char) (cf : Option (List Char)),
        hasPhaseLabel ctx = true → phaseMatch ctx = none →
          phaseInfoOf ctx = defPhase ∧ update_prompt_content cf ctx st = none) ∧
    (∀ ctx : List Char, hasChar '%' ctx = false → phaseMatch ctx = none) := by
  constructor
  · intro ctx st cf _ hfail
    constructor
    · unfold phaseInfoOf
      rw [hfail]
    · unfold update_prompt_content
      rw [hfail]
  · intro ctx hpc
    unfold phaseMatch
    cases hsp : splitFirst litPh ctx with
    | none => rfl
    | some p =>
      have hsub := splitFirst_sub _ _ _ hsp
      have hr : hasChar '%' p.2 = false := by
        by_cases hb : hasChar '%' p.2 = true
        · exfalso
          rw [hasChar_iff] at hb
          have hmem : '%' ∈ ctx := by
            rw [hsub]
            simp [hb]
          rw [← hasChar_iff, hpc] at hmem
          exact Bool.false_ne_true hmem
        · simpa using hb
      simp [findPS_none p.2 hr]

/-- Witness for C3: a concrete context document with a phase label but no
progress line; the phase info defaults and the render fails. -/
theorem C3_combined_phase_progress_witness :
    (phaseInfoOf "## Current Phase: 1/3 - X\nno progress here".toList = defPhase ∧
      update_prompt_content none "## Current Phase: 1/3 - X\nno progress here".toList
        ['s'] = none) ∧
    phaseMatch "## Current Phase: 1/3 - X\nno progress here".toList = none := by
  refine ⟨?_, ?_⟩
  · exact C3_combined_phase_progress.1 _ ['s'] none (by decide) (by decide)
  · exact C3_combined_phase_progress.2 _ (by decide)

/-- C10: the four keyed-line extractions of `RegeneratePrompt` (and the
current-task read of `UpdateState`, which is the same `CURRENT TASK`
extraction) never return a string containing `'-'` (first conjunct: for every
state document, including the defaults used on non-match), because the
extraction pattern stops at the first hyphen — a keyed value containing a
hyphen is silently truncated there (second conjunct). -/
theorem C10_keyed_values_hyphen_free :
    (∀ st : List Char,
        '-' ∉ keyedVal litCT defTask st ∧ '-' ∉ keyedVal litCC defCrit st ∧
        '-' ∉ keyedVal litWF defFiles st ∧ '-' ∉ keyedVal litIP defInteg st) ∧
    (∀ v1 v2 : List Char, (∀ c ∈ v1, c ≠ '\n' ∧ c ≠ '-') →
        keyedVal litCT defTask (litCT ++ (v1 ++ '-' :: v2)) = trim v1) := by
  constructor
  · intro st
    exact ⟨keyedVal_no_dash _ _ _ (by decide), keyedVal_no_dash _ _ _ (by decide),
      keyedVal_no_dash _ _ _ (by decide), keyedVal_no_dash _ _ _ (by decide)⟩
  · intro v1 v2 hv
    unfold keyedVal
    rw [splitFirst_hit]
    show trim (List.takeWhile _ (v1 ++ '-' :: v2)) = trim v1
    rw [takeWhile_seg _ v1 '-' v2 (fun x hx => by simp [(hv x hx).1, (hv x hx).2])
      (by decide)]

/-- Witness for C10: a keyed value `"fix lexer- tail"` is truncated at the
hyphen to `"fix lexer"`. -/
theorem C10_keyed_values_hyphen_free_witness :
    keyedVal litCT defTask (litCT ++ ("fix lexer".toList ++ '-' :: " tail".toList))
      = trim "fix lexer".toList :=
  C10_keyed_values_hyphen_free.2 "fix lexer".toList " tail".toList (by decide)

theorem dash2_eq : dash2 = ['-', ' '] := rfl

theorem colonSp_eq : colonSp = [':', ' '] := rfl

theorem nlHH_eq : nlHH = '\n' :: '#' :: '#' :: [] := rfl

theorem noHitB_head_lit (lit : List Char) (hd : Char) (hs t : List Char)
    (hlit : lit = hd :: hs) (h : ∀ c ∈ t, c ≠ hd) : noHitB lit t = true := by
  subst hlit
  exact noHitB_head hd hs t h

theorem forall_cons2 {p : Char → Prop} (a b : Char) (t : List Char)
    (ha : p a) (hb : p b) (ht : ∀ c ∈ t, p c) : ∀ c ∈ a :: b :: t, p c := by
  intro c hc
  simp only [List.mem_cons] at hc
  rcases hc with rfl | rfl | h
  · exact ha
  · exact hb
  · exact ht c h

theorem forall_cons3 {p : Char → Prop} (a b d : Char) (t : List Char)
    (ha : p a) (hb : p b) (hd : p d) (ht : ∀ c ∈ t, p c) :
    ∀ c ∈ a :: b :: d :: t, p c := by
  intro c hc
  simp only [List.mem_cons] at hc
  rcases hc with rfl | rfl | rfl | h
  · exact ha
  · exact hb
  · exact hd
  · exact ht c h

theorem hasChar_cons_ne (c d : Char) (t : List Char) (h : d ≠ c) :
    hasChar c (d :: t) = hasChar c t := by
  simp [hasChar, h]

theorem tidy_no_nl (t : List Char) (h : tidy t = true) : ∀ c ∈ t, c ≠ '\n' := by
  intro c hc hcn
  subst hcn
  exact hasChar_false _ _ (tidy_spec t h).2.2.2 hc

theorem headI_append (l r : List Char) (h : l ≠ []) : (l ++ r).headI = l.headI := by
  cases l with
  | nil => exact absurd rfl h
  | cons c cs => rfl

theorem revHeadI_append_pre (X pre e : List Char) (he : e ≠ []) :
    (X ++ (pre ++ e)).reverse.headI = e.reverse.headI := by
  rw [List.reverse_append, List.reverse_append]
  rw [headI_append _ _ (by simp [he])]
  exact headI_append _ _ (by simpa using he)

theorem trim_of_ends (t : List Char) (hne : t ≠ []) (hh : isWS t.headI = false)
    (hl : isWS t.reverse.headI = false) : trim t = t := by
  unfold trim
  rw [dropWhile_nows_self t hne hh]
  rw [dropWhile_nows_self t.reverse (by simpa using hne) hl]
  simp

theorem trim_snoc_nl (t : List Char) (hne : t ≠ []) (hh : isWS t.headI = false)
    (hl : isWS t.reverse.headI = false) : trim (t ++ ['\n']) = t := by
  unfold trim
  rw [dropWhile_nows t ['\n'] hne hh]
  have hrev : (t ++ ['\n']).reverse = '\n' :: t.reverse := by simp
  rw [hrev, List.dropWhile_cons]
  rw [if_pos (by decide : isWS '\n' = true)]
  rw [dropWhile_nows_self t.reverse (by simpa using hne) hl]
  simp

/-! ## A concrete state-document skeleton with five Completed entries and five
Next Tasks entries (used for C6) -/

/-- A Completed bullet line body: `"- " ++ e`. -/
def cChunk (e : List Char) : List Char := '-' :: ' ' :: e

/-- A numbered Next Tasks line body: `"<d>. " ++ e`. -/
def nChunk (d : Char) (e : List Char) : List Char := d :: '.' :: ' ' :: e

def st6pre : List Char :=
  "# Development State\n\n## High Priority\n- CURRENT TASK: t\n\n".toList

def st6tail : List Char := "## Challenges\n- None yet\n".toList

/-- The Next Tasks section body followed by a blank line and the Challenges
section. -/
def nextBody (t1 t2 t3 t4 t5 : List Char) : List Char :=
  nChunk '1' t1 ++ ('\n' :: (nChunk '2' t2 ++ ('\n' :: (nChunk '3' t3 ++
    ('\n' :: (nChunk '4' t4 ++ ('\n' :: (nChunk '5' t5 ++
      ('\n' :: ('\n' :: st6tail))))))))))

/-- The Completed section body (five bullets, then a blank line) followed by
`rest`. -/
def compBody (c1 c2 c3 c4 c5 rest : List Char) : List Char :=
  cChunk c1 ++ ('\n' :: (cChunk c2 ++ ('\n' :: (cChunk c3 ++ ('\n' ::
    (cChunk c4 ++ ('\n' :: (cChunk c5 ++ ('\n' :: ('\n' :: rest))))))))))

/-- A state document with five Completed entries `c1..c5` and five Next Tasks
entries `t1..t5`. -/
def st6 (c1 c2 c3 c4 c5 t1 t2 t3 t4 t5 : List Char) : List Char :=
  st6pre ++ (hdCompleted ++
    compBody c1 c2 c3 c4 c5 (hdNext ++ nextBody t1 t2 t3 t4 t5))

theorem replA_hit_lit (lit repl s : List Char) (hl : lit ≠ []) :
    replA lit repl (lit ++ s) = repl ++ replA lit repl s := by
  obtain ⟨a, as, hh⟩ := List.exists_cons_of_ne_nil hl
  subst hh
  exact replA_hit a as repl s

theorem replA_skip_lit (lit repl t s : List Char) (hl : lit ≠ [])
    (h : noHitB lit t = true) :
    replA lit repl (t ++ s) = t ++ replA lit repl s := by
  obtain ⟨a, as, hh⟩ := List.exists_cons_of_ne_nil hl
  subst hh
  exact replA_skip a as repl t s h

theorem replA_miss_char_lit (lit repl : List Char) (c : Char) (s : List Char)
    (hl : lit ≠ []) (h : clashB lit [c] = true) :
    replA lit repl (c :: s) = c :: replA lit repl s := by
  obtain ⟨a, as, hh⟩ := List.exists_cons_of_ne_nil hl
  subst hh
  exact replA_miss_char a as repl c s h

theorem replA_all_lit (lit repl t : List Char) (hl : lit ≠ [])
    (h : noHitB lit t = true) :
    replA lit repl t = t := by
  obtain ⟨a, as, hh⟩ := List.exists_cons_of_ne_nil hl
  subst hh
  exact replA_all a as repl t h

/-- C1 counterexample: on a state document with two `CURRENT TASK` lines,
`UpdateState(nextTask="N")` rewrites *both* occurrences (the `re.sub` has no
count limit), so the result differs from the first-occurrence-only rewrite
that the claim describes, in which the second line would stay `"b"`. -/
theorem C1_counterexample :
    update_state_content none (some ['N']) none none none false
        "- CURRENT TASK: a\nx\n- CURRENT TASK: b\n".toList
      = "- CURRENT TASK: N\nx\n- CURRENT TASK: N\n".toList ∧
    ("- CURRENT TASK: N\nx\n- CURRENT TASK: N\n".toList : List Char)
      ≠ "- CURRENT TASK: N\nx\n- CURRENT TASK: b\n".toList := by
  refine ⟨by decide, by decide⟩

/-- C1 amended: the keyed-line replacements of `UpdateState` and the
phase/progress replacements of `UpdatePhase` rewrite *every* matching
occurrence of their target pattern, not only the first.  Part 1: a state
document with two `CURRENT TASK` lines and two `COMPLETION CRITERIA` lines has
all four lines rewritten.  Part 2: a context document with two phase headers
has both rewritten, and one with two progress values has both rewritten. -/
theorem C1_amended_replaces_every_occurrence :
    (∀ (v1 v2 w1 w2 nt cr : List Char),
      nt ≠ [] → cr ≠ [] →
      (∀ c ∈ v1, c ≠ '\n') → (∀ c ∈ v2, c ≠ '\n') →
      (∀ c ∈ w1, c ≠ '\n' ∧ c ≠ '-') → (∀ c ∈ w2, c ≠ '\n' ∧ c ≠ '-') →
      (∀ c ∈ nt, c ≠ '-') →
      update_state_content none (some nt) (some cr) none none false
          (litCT ++ (v1 ++ '\n' :: (litCT ++ (v2 ++ '\n' ::
            (litCC ++ (w1 ++ '\n' :: (litCC ++ (w2 ++ '\n' :: []))))))))
        = litCT ++ (nt ++ '\n' :: (litCT ++ (nt ++ '\n' ::
            (litCC ++ (cr ++ '\n' :: (litCC ++ (cr ++ '\n' :: [])))))))) ∧
    (∀ (p1 p2 q1 q2 np pv : List Char),
      np ≠ [] → pv ≠ [] →
      (∀ c ∈ p1, c ≠ '\n') → (∀ c ∈ p2, c ≠ '\n') →
      (∀ c ∈ q1, c ≠ '%' ∧ c ≠ '\n' ∧ c ≠ '#') →
      (∀ c ∈ q2, c ≠ '%' ∧ c ≠ '\n' ∧ c ≠ '#') →
      (∀ c ∈ np, c ≠ 'P') →
      update_phase_content (some np) (some pv)
          (litPh ++ (p1 ++ '\n' :: (litPh ++ (p2 ++ '\n' ::
            (litPr ++ (q1 ++ '%' :: (litPr ++ (q2 ++ '%' :: []))))))))
        = litPh ++ (np ++ '\n' :: (litPh ++ (np ++ '\n' ::
            (litPr ++ (pv ++ '%' :: (litPr ++ (pv ++ '%' :: [])))))))) := by
  constructor
  · intro v1 v2 w1 w2 nt cr hnt hcr hv1 hv2 hw1 hw2 hntd
    have hw1' : noHitB litCT w1 = true := by
      show noHitB ('-' :: " CURRENT TASK: ".toList) w1 = true
      exact noHitB_head _ _ _ (fun c hc => (hw1 c hc).2)
    have hw2' : noHitB litCT w2 = true := by
      show noHitB ('-' :: " CURRENT TASK: ".toList) w2 = true
      exact noHitB_head _ _ _ (fun c hc => (hw2 c hc).2)
    have hnt' : noHitB litCC nt = true := by
      show noHitB ('-' :: " COMPLETION CRITERIA: ".toList) nt = true
      exact noHitB_head _ _ _ hntd
    have hred : update_state_content none (some nt) (some cr) none none false
          (litCT ++ (v1 ++ '\n' :: (litCT ++ (v2 ++ '\n' ::
            (litCC ++ (w1 ++ '\n' :: (litCC ++ (w2 ++ '\n' :: []))))))))
        = substA litCC '\n' (litCC ++ (cr ++ nl1))
            (substA litCT '\n' (litCT ++ (nt ++ nl1))
              (litCT ++ (v1 ++ '\n' :: (litCT ++ (v2 ++ '\n' ::
                (litCC ++ (w1 ++ '\n' :: (litCC ++ (w2 ++ '\n' :: []))))))))) := by
      unfold update_state_content
      simp [tval_some nt hnt, tval_some cr hcr, tval_none]
    rw [hred]
    rw [substA_hit _ _ _ _ _ (by decide) (fun c hc => ⟨hv1 c hc, hv1 c hc⟩)]
    rw [substA_hit _ _ _ _ _ (by decide) (fun c hc => ⟨hv2 c hc, hv2 c hc⟩)]
    rw [substA_skip _ _ _ litCC _ (by decide)]
    rw [substA_skip _ _ _ w1 _ hw1']
    rw [substA_miss_char _ _ _ '\n' _ (by decide)]
    rw [substA_skip _ _ _ litCC _ (by decide)]
    rw [substA_skip _ _ _ w2 _ hw2']
    rw [substA_miss_char _ _ _ '\n' _ (by decide)]
    rw [substA_nil]
    have hsh : (litCT ++ (nt ++ nl1)) ++ ((litCT ++ (nt ++ nl1)) ++
          (litCC ++ (w1 ++ '\n' :: (litCC ++ (w2 ++ '\n' :: [])))))
        = litCT ++ (nt ++ ('\n' :: (litCT ++ (nt ++ ('\n' ::
            (litCC ++ (w1 ++ '\n' :: (litCC ++ (w2 ++ '\n' :: []))))))))) := by
      simp [nl1]
    rw [hsh]
    rw [substA_skip _ _ _ litCT _ (by decide)]
    rw [substA_skip _ _ _ nt _ hnt']
    rw [substA_miss_char _ _ _ '\n' _ (by decide)]
    rw [substA_skip _ _ _ litCT _ (by decide)]
    rw [substA_skip _ _ _ nt _ hnt']
    rw [substA_miss_char _ _ _ '\n' _ (by decide)]
    rw [substA_hit _ _ _ _ _ (by decide) (fun c hc => ⟨(hw1 c hc).1, (hw1 c hc).1⟩)]
    rw [substA_hit _ _ _ _ _ (by decide) (fun c hc => ⟨(hw2 c hc).1, (hw2 c hc).1⟩)]
    rw [substA_nil]
    simp [nl1]
  · intro p1 p2 q1 q2 np pv hnp hpv hp1 hp2 hq1 hq2 hnpP
    have hq1' : noHitB litPh q1 = true := by
      show noHitB ('#' :: "# Current Phase: ".toList) q1 = true
      exact noHitB_head _ _ _ (fun c hc => (hq1 c hc).2.2)
    have hq2' : noHitB litPh q2 = true := by
      show noHitB ('#' :: "# Current Phase: ".toList) q2 = true
      exact noHitB_head _ _ _ (fun c hc => (hq2 c hc).2.2)
    have hnp' : noHitB litPr np = true := by
      show noHitB ('P' :: "rogress: ".toList) np = true
      exact noHitB_head _ _ _ hnpP
    have hred : update_phase_content (some np) (some pv)
          (litPh ++ (p1 ++ '\n' :: (litPh ++ (p2 ++ '\n' ::
            (litPr ++ (q1 ++ '%' :: (litPr ++ (q2 ++ '%' :: []))))))))
        = substA litPr '%' (litPr ++ (pv ++ pc1))
            (substA litPh '\n' (litPh ++ (np ++ nl1))
              (litPh ++ (p1 ++ '\n' :: (litPh ++ (p2 ++ '\n' ::
                (litPr ++ (q1 ++ '%' :: (litPr ++ (q2 ++ '%' :: []))))))))) := by
      unfold update_phase_content
      simp [tval_some np hnp, tval_some pv hpv, tval_none]
    rw [hred]
    rw [substA_hit _ _ _ _ _ (by decide) (fun c hc => ⟨hp1 c hc, hp1 c hc⟩)]
    rw [substA_hit _ _ _ _ _ (by decide) (fun c hc => ⟨hp2 c hc, hp2 c hc⟩)]
    rw [substA_skip _ _ _ litPr _ (by decide)]
    rw [substA_skip _ _ _ q1 _ hq1']
    rw [substA_miss_char _ _ _ '%' _ (by decide)]
    rw [substA_skip _ _ _ litPr _ (by decide)]
    rw [substA_skip _ _ _ q2 _ hq2']
    rw [substA_miss_char _ _ _ '%' _ (by decide)]
    rw [substA_nil]
    have hsh : (litPh ++ (np ++ nl1)) ++ ((litPh ++ (np ++ nl1)) ++
          (litPr ++ (q1 ++ '%' :: (litPr ++ (q2 ++ '%' :: [])))))
        = litPh ++ (np ++ ('\n' :: (litPh ++ (np ++ ('\n' ::
            (litPr ++ (q1 ++ '%' :: (litPr ++ (q2 ++ '%' :: []))))))))) := by
      simp [nl1]
    rw [hsh]
    rw [substA_skip _ _ _ litPh _ (by decide)]
    rw [substA_skip _ _ _ np _ hnp']
    rw [substA_miss_char _ _ _ '\n' _ (by decide)]
    rw [substA_skip _ _ _ litPh _ (by decide)]
    rw [substA_skip _ _ _ np _ hnp']
    rw [substA_miss_char _ _ _ '\n' _ (by decide)]
    rw [substA_hit _ _ _ _ _ (by decide)
      (fun c hc => ⟨(hq1 c hc).1, (hq1 c hc).2.1⟩)]
    rw [substA_hit _ _ _ _ _ (by decide)
      (fun c hc => ⟨(hq2 c hc).1, (hq2 c hc).2.1⟩)]
    rw [substA_nil]
    simp [pc1]

/-- Witness for C1 amended: concrete doubled keyed lines and doubled
phase/progress values are all rewritten. -/
theorem C1_amended_replaces_every_occurrence_witness :
    update_state_content none (some ['N']) (some ['C']) none none false
        (litCT ++ (['a'] ++ '\n' :: (litCT ++ (['b'] ++ '\n' ::
          (litCC ++ (['c'] ++ '\n' :: (litCC ++ (['d'] ++ '\n' :: []))))))))
      = litCT ++ (['N'] ++ '\n' :: (litCT ++ (['N'] ++ '\n' ::
          (litCC ++ (['C'] ++ '\n' :: (litCC ++ (['C'] ++ '\n' :: []))))))) ∧
    update_phase_content (some ['x']) (some ['9'])
        (litPh ++ (['1'] ++ '\n' :: (litPh ++ (['2'] ++ '\n' ::
          (litPr ++ (['5'] ++ '%' :: (litPr ++ (['7'] ++ '%' :: []))))))))
      = litPh ++ (['x'] ++ '\n' :: (litPh ++ (['x'] ++ '\n' ::
          (litPr ++ (['9'] ++ '%' :: (litPr ++ (['9'] ++ '%' :: []))))))) := by
  constructor
  · exact C1_amended_replaces_every_occurrence.1 ['a'] ['b'] ['c'] ['d'] ['N'] ['C']
      (by decide) (by decide) (by decide) (by decide) (by decide) (by decide) (by decide)
  · exact C1_amended_replaces_every_occurrence.2 ['1'] ['2'] ['5'] ['7'] ['x'] ['9']
      (by decide) (by decide) (by decide) (by decide) (by decide) (by decide) (by decide)

/-- C4: on a state document whose `CURRENT TASK` value is `T` and whose
Completed section holds entries `[A, B]`, calling `UpdateState` with
`taskCompleted = D` inserts the new bullet `- T: D` immediately after the
`## Completed` heading: the resulting section reads `[T: D, A, B]`, with the
existing entries unchanged below the new one and the rest of the document
untouched. -/
theorem C4_completed_prepends (T A B D : List Char)
    (hTt : tidy T = true) (hTd : ∀ c ∈ T, c ≠ '-' ∧ c ≠ '#')
    (hA : ∀ c ∈ A, c ≠ '#' ∧ c ≠ '\n') (hB : ∀ c ∈ B, c ≠ '#' ∧ c ≠ '\n')
    (hD : D ≠ []) :
    update_state_content (some D) none none none none false
        (litCT ++ (T ++ '\n' :: (hdCompleted ++ (('-' :: ' ' :: A) ++ ('\n' ::
          (('-' :: ' ' :: B) ++ ('\n' :: "## Next Tasks\n".toList)))))))
      = litCT ++ (T ++ '\n' :: (hdCompleted ++ ('-' :: ' ' :: (T ++ (':' :: ' ' ::
          (D ++ ('\n' :: (('-' :: ' ' :: A) ++ ('\n' :: (('-' :: ' ' :: B) ++
            ('\n' :: "## Next Tasks\n".toList))))))))))) := by
  have hTn : ∀ c ∈ T, c ≠ '\n' := by
    intro c hc hcn
    subst hcn
    exact hasChar_false _ _ (tidy_spec T hTt).2.2.2 hc
  have hKV : keyedVal litCT defTask
      (litCT ++ (T ++ '\n' :: (hdCompleted ++ (('-' :: ' ' :: A) ++ ('\n' ::
        (('-' :: ' ' :: B) ++ ('\n' :: "## Next Tasks\n".toList))))))) = T := by
    unfold keyedVal
    rw [splitFirst_hit]
    show trim (List.takeWhile _ (T ++ '\n' :: _)) = T
    rw [takeWhile_seg _ T '\n' _
      (fun x hx => by simp [hTn x hx, (hTd x hx).1]) (by decide)]
    exact trim_tidy T hTt
  obtain ⟨d, ds, rfl⟩ := List.exists_cons_of_ne_nil hD
  have hred : update_state_content (some (d :: ds)) none none none none false
        (litCT ++ (T ++ '\n' :: (hdCompleted ++ (('-' :: ' ' :: A) ++ ('\n' ::
          (('-' :: ' ' :: B) ++ ('\n' :: "## Next Tasks\n".toList)))))))
      = replA hdCompleted
          (hdCompleted ++ dash2 ++ keyedVal litCT defTask
              (litCT ++ (T ++ '\n' :: (hdCompleted ++ (('-' :: ' ' :: A) ++ ('\n' ::
                (('-' :: ' ' :: B) ++ ('\n' :: "## Next Tasks\n".toList)))))))
            ++ colonSp ++ (d :: ds) ++ nl1)
          (litCT ++ (T ++ '\n' :: (hdCompleted ++ (('-' :: ' ' :: A) ++ ('\n' ::
            (('-' :: ' ' :: B) ++ ('\n' :: "## Next Tasks\n".toList))))))) := rfl
  rw [hred, hKV]
  have hTskip : noHitB hdCompleted T = true := by
    show noHitB ('#' :: "# Completed\n".toList) T = true
    exact noHitB_head _ _ _ (fun c hc => (hTd c hc).2)
  have hAskip : noHitB hdCompleted ('-' :: ' ' :: A) = true := by
    show noHitB ('#' :: "# Completed\n".toList) ('-' :: ' ' :: A) = true
    apply noHitB_head
    intro c hc
    simp only [List.mem_cons] at hc
    rcases hc with rfl | rfl | h
    · decide
    · decide
    · exact (hA c h).1
  have hBskip : noHitB hdCompleted ('-' :: ' ' :: B) = true := by
    show noHitB ('#' :: "# Completed\n".toList) ('-' :: ' ' :: B) = true
    apply noHitB_head
    intro c hc
    simp only [List.mem_cons] at hc
    rcases hc with rfl | rfl | h
    · decide
    · decide
    · exact (hB c h).1
  rw [replA_skip_lit _ _ litCT _ (by decide) (by decide)]
  rw [replA_skip_lit _ _ T _ (by decide) hTskip]
  rw [replA_miss_char_lit _ _ '\n' _ (by decide) (by decide)]
  rw [replA_hit_lit _ _ _ (by decide)]
  rw [replA_skip_lit _ _ ('-' :: ' ' :: A) _ (by decide) hAskip]
  rw [replA_miss_char_lit _ _ '\n' _ (by decide) (by decide)]
  rw [replA_skip_lit _ _ ('-' :: ' ' :: B) _ (by decide) hBskip]
  rw [replA_miss_char_lit _ _ '\n' _ (by decide) (by decide)]
  rw [replA_all_lit _ _ _ (by decide) (by decide)]
  simp [dash2_eq, colonSp_eq, nl1]

/-- Witness for C4 at concrete entries: current task `"T1"`, entries `"A"`,
`"B"`, completion note `"done X"`. -/
theorem C4_completed_prepends_witness :
    update_state_content (some "done X".toList) none none none none false
        (litCT ++ ("T1".toList ++ '\n' :: (hdCompleted ++ (('-' :: ' ' :: ['A']) ++
          ('\n' :: (('-' :: ' ' :: ['B']) ++ ('\n' :: "## Next Tasks\n".toList)))))))
      = litCT ++ ("T1".toList ++ '\n' :: (hdCompleted ++ ('-' :: ' ' ::
          ("T1".toList ++ (':' :: ' ' :: ("done X".toList ++ ('\n' ::
            (('-' :: ' ' :: ['A']) ++ ('\n' :: (('-' :: ' ' :: ['B']) ++
              ('\n' :: "## Next Tasks\n".toList))))))))))) :=
  C4_completed_prepends "T1".toList ['A'] ['B'] "done X".toList
    (by decide) (by decide) (by decide) (by decide) (by decide)

theorem sectionBody_eq (header doc : List Char) (a body g j : List Char)
    (h1 : splitFirst header doc = some (a, body))
    (h2 : splitFirst nlHH body = some (g, j)) :
    sectionBody header doc = some g := by
  unfold sectionBody
  rw [h1]
  show some (match splitFirst nlHH body with | some q => q.1 | none => body) = some g
  rw [h2]

/-- C6: on a state document whose Completed section holds the five entries
`c1..c5` and whose Next Tasks section holds the five numbered entries
`t1..t5`, the completed summary rendered into the prompt is exactly the last
three completed entries in original order joined by `", "`, and the next-tasks
summary is exactly the first three next-task titles (numbers stripped) in
original order joined by `", "`.  `completedInfoOf` and `nextInfoOf` are the
very values spliced into the prompt template by `update_prompt_content`. -/
theorem C6_bounded_summaries (c1 c2 c3 c4 c5 t1 t2 t3 t4 t5 : List Char)
    (hc : ∀ x ∈ [c1, c2, c3, c4, c5], tidy x = true ∧ ∀ ch ∈ x, ch ≠ '#')
    (ht : ∀ x ∈ [t1, t2, t3, t4, t5], tidy x = true) :
    completedInfoOf (st6 c1 c2 c3 c4 c5 t1 t2 t3 t4 t5)
      = c3 ++ (',' :: ' ' :: (c4 ++ (',' :: ' ' :: c5))) ∧
    nextInfoOf (st6 c1 c2 c3 c4 c5 t1 t2 t3 t4 t5)
      = t1 ++ (',' :: ' ' :: (t2 ++ (',' :: ' ' :: t3))) := by
  have h1 := hc c1 (by simp); have h2 := hc c2 (by simp); have h3 := hc c3 (by simp)
  have h4 := hc c4 (by simp); have h5 := hc c5 (by simp)
  have k1 := ht t1 (by simp); have k2 := ht t2 (by simp); have k3 := ht t3 (by simp)
  have k4 := ht t4 (by simp); have k5 := ht t5 (by simp)
  have hnoNl : ∀ (e : List Char), tidy e = true → noHitB nlHH (cChunk e) = true := by
    intro e he
    refine noHitB_head_lit nlHH '\n' "##".toList _ rfl ?_
    unfold cChunk
    exact forall_cons2 _ _ _ (by decide) (by decide) (tidy_no_nl e he)
  have hnoNlN : ∀ (d : Char) (e : List Char), d ≠ '\n' → tidy e = true →
      noHitB nlHH (nChunk d e) = true := by
    intro d e hd he
    refine noHitB_head_lit nlHH '\n' "##".toList _ rfl ?_
    unfold nChunk
    exact forall_cons3 _ _ _ _ hd (by decide) (by decide) (tidy_no_nl e he)
  have hch : ∀ (e : List Char), tidy e = true → hasChar '\n' (cChunk e) = false := by
    intro e he
    unfold cChunk
    rw [hasChar_cons_ne _ _ _ (by decide), hasChar_cons_ne _ _ _ (by decide)]
    exact (tidy_spec e he).2.2.2
  have hchN : ∀ (d : Char) (e : List Char), d ≠ '\n' → tidy e = true →
      hasChar '\n' (nChunk d e) = false := by
    intro d e hd he
    unfold nChunk
    rw [hasChar_cons_ne _ _ _ hd, hasChar_cons_ne _ _ _ (by decide),
      hasChar_cons_ne _ _ _ (by decide)]
    exact (tidy_spec e he).2.2.2
  -- locate the Completed section body
  have hsC : splitFirst hdCompleted (st6 c1 c2 c3 c4 c5 t1 t2 t3 t4 t5)
      = some (st6pre ++ [],
          compBody c1 c2 c3 c4 c5 (hdNext ++ nextBody t1 t2 t3 t4 t5)) := by
    unfold st6
    rw [splitFirst_skip _ st6pre _ (by decide), splitFirst_hit]
    rfl
  have hsB : splitFirst nlHH (compBody c1 c2 c3 c4 c5 (hdNext ++ nextBody t1 t2 t3 t4 t5))
      = some (cChunk c1 ++ ('\n' :: (cChunk c2 ++ ('\n' :: (cChunk c3 ++ ('\n' ::
          (cChunk c4 ++ ('\n' :: (cChunk c5 ++ ('\n' :: []))))))))),
          " Next Tasks\n".toList ++ nextBody t1 t2 t3 t4 t5) := by
    unfold compBody
    rw [splitFirst_skip _ (cChunk c1) _ (hnoNl c1 h1.1)]
    rw [splitFirst_miss nlHH '\n' _ (by unfold cChunk; simp [nlHH_eq, pfx])]
    rw [splitFirst_skip _ (cChunk c2) _ (hnoNl c2 h2.1)]
    rw [splitFirst_miss nlHH '\n' _ (by unfold cChunk; simp [nlHH_eq, pfx])]
    rw [splitFirst_skip _ (cChunk c3) _ (hnoNl c3 h3.1)]
    rw [splitFirst_miss nlHH '\n' _ (by unfold cChunk; simp [nlHH_eq, pfx])]
    rw [splitFirst_skip _ (cChunk c4) _ (hnoNl c4 h4.1)]
    rw [splitFirst_miss nlHH '\n' _ (by unfold cChunk; simp [nlHH_eq, pfx])]
    rw [splitFirst_skip _ (cChunk c5) _ (hnoNl c5 h5.1)]
    rw [splitFirst_miss nlHH '\n' _ (by simp [nlHH_eq, pfx])]
    rw [show ('\n' :: (hdNext ++ nextBody t1 t2 t3 t4 t5))
        = nlHH ++ (" Next Tasks\n".toList ++ nextBody t1 t2 t3 t4 t5) from rfl]
    rw [splitFirst_hit]
    simp
  have hbodyC := sectionBody_eq _ _ _ _ _ _ hsC hsB
  -- the Completed section body without its trailing newline
  have hU : (cChunk c1 ++ ('\n' :: (cChunk c2 ++ ('\n' :: (cChunk c3 ++ ('\n' ::
        (cChunk c4 ++ ('\n' :: (cChunk c5 ++ ('\n' :: []))))))))))
      = (cChunk c1 ++ ('\n' :: (cChunk c2 ++ ('\n' :: (cChunk c3 ++ ('\n' ::
        (cChunk c4 ++ ('\n' :: cChunk c5)))))))) ++ ['\n'] := by
    simp [cChunk]
  have hc5ne : c5 ≠ [] := (tidy_spec c5 h5.1).1
  have hUne : (cChunk c1 ++ ('\n' :: (cChunk c2 ++ ('\n' :: (cChunk c3 ++ ('\n' ::
      (cChunk c4 ++ ('\n' :: cChunk c5)))))))) ≠ [] := by
    simp [cChunk]
  have hUh : isWS (cChunk c1 ++ ('\n' :: (cChunk c2 ++ ('\n' :: (cChunk c3 ++ ('\n' ::
      (cChunk c4 ++ ('\n' :: cChunk c5)))))))).headI = false := by
    rw [headI_append _ _ (by simp [cChunk])]
    rw [show (cChunk c1).headI = '-' from rfl]
    decide
  have hUl : isWS (cChunk c1 ++ ('\n' :: (cChunk c2 ++ ('\n' :: (cChunk c3 ++ ('\n' ::
      (cChunk c4 ++ ('\n' :: cChunk c5)))))))).reverse.headI = false := by
    rw [show (cChunk c1 ++ ('\n' :: (cChunk c2 ++ ('\n' :: (cChunk c3 ++ ('\n' ::
          (cChunk c4 ++ ('\n' :: cChunk c5))))))))
        = (cChunk c1 ++ ('\n' :: (cChunk c2 ++ ('\n' :: (cChunk c3 ++ ('\n' ::
          (cChunk c4 ++ ['\n']))))))) ++ (['-', ' '] ++ c5) from by simp [cChunk]]
    rw [revHeadI_append_pre _ _ _ hc5ne]
    exact (tidy_spec c5 h5.1).2.2.1
  have htrim : trim (cChunk c1 ++ ('\n' :: (cChunk c2 ++ ('\n' :: (cChunk c3 ++ ('\n' ::
        (cChunk c4 ++ ('\n' :: (cChunk c5 ++ ('\n' :: []))))))))))
      = cChunk c1 ++ ('\n' :: (cChunk c2 ++ ('\n' :: (cChunk c3 ++ ('\n' ::
        (cChunk c4 ++ ('\n' :: cChunk c5))))))) := by
    rw [hU]
    exact trim_snoc_nl _ hUne hUh hUl
  have hsplitL : splitNL (cChunk c1 ++ ('\n' :: (cChunk c2 ++ ('\n' :: (cChunk c3 ++
        ('\n' :: (cChunk c4 ++ ('\n' :: cChunk c5))))))))
      = [cChunk c1, cChunk c2, cChunk c3, cChunk c4, cChunk c5] := by
    rw [splitNL_seg _ _ (hch c1 h1.1), splitNL_seg _ _ (hch c2 h2.1),
      splitNL_seg _ _ (hch c3 h3.1), splitNL_seg _ _ (hch c4 h4.1),
      splitNL_all _ (hch c5 h5.1)]
  have hbul : bullets (cChunk c1 ++ ('\n' :: (cChunk c2 ++ ('\n' :: (cChunk c3 ++ ('\n' ::
        (cChunk c4 ++ ('\n' :: (cChunk c5 ++ ('\n' :: []))))))))))
      = [c1, c2, c3, c4, c5] := by
    unfold bullets
    rw [htrim, hsplitL]
    simp [cChunk, pfx, dash2_eq, trim_tidy c1 h1.1, trim_tidy c2 h2.1,
      trim_tidy c3 h3.1, trim_tidy c4 h4.1, trim_tidy c5 h5.1]
  -- locate the Next Tasks section body
  have hsN : splitFirst hdNext (st6 c1 c2 c3 c4 c5 t1 t2 t3 t4 t5)
      = some (st6pre ++ (hdCompleted ++ compBody c1 c2 c3 c4 c5 []),
          nextBody t1 t2 t3 t4 t5) := by
    unfold st6 compBody
    rw [splitFirst_skip _ st6pre _ (by decide)]
    rw [splitFirst_skip _ hdCompleted _ (by decide)]
    rw [splitFirst_skip _ (cChunk c1) _
      (noHitB_head_lit hdNext '#' "# Next Tasks\n".toList _ rfl
        (by unfold cChunk; exact forall_cons2 _ _ _ (by decide) (by decide) h1.2))]
    rw [splitFirst_miss_char hdNext '\n' _ (by decide)]
    rw [splitFirst_skip _ (cChunk c2) _
      (noHitB_head_lit hdNext '#' "# Next Tasks\n".toList _ rfl
        (by unfold cChunk; exact forall_cons2 _ _ _ (by decide) (by decide) h2.2))]
    rw [splitFirst_miss_char hdNext '\n' _ (by decide)]
    rw [splitFirst_skip _ (cChunk c3) _
      (noHitB_head_lit hdNext '#' "# Next Tasks\n".toList _ rfl
        (by unfold cChunk; exact forall_cons2 _ _ _ (by decide) (by decide) h3.2))]
    rw [splitFirst_miss_char hdNext '\n' _ (by decide)]
    rw [splitFirst_skip _ (cChunk c4) _
      (noHitB_head_lit hdNext '#' "# Next Tasks\n".toList _ rfl
        (by unfold cChunk; exact forall_cons2 _ _ _ (by decide) (by decide) h4.2))]
    rw [splitFirst_miss_char hdNext '\n' _ (by decide)]
    rw [splitFirst_skip _ (cChunk c5) _
      (noHitB_head_lit hdNext '#' "# Next Tasks\n".toList _ rfl
        (by unfold cChunk; exact forall_cons2 _ _ _ (by decide) (by decide) h5.2))]
    rw [splitFirst_miss_char hdNext '\n' _ (by decide)]
    rw [splitFirst_miss_char hdNext '\n' _ (by decide)]
    rw [splitFirst_hit]
    simp
  have hsN2 : splitFirst nlHH (nextBody t1 t2 t3 t4 t5)
      = some (nChunk '1' t1 ++ ('\n' :: (nChunk '2' t2 ++ ('\n' :: (nChunk '3' t3 ++
          ('\n' :: (nChunk '4' t4 ++ ('\n' :: (nChunk '5' t5 ++ ('\n' :: []))))))))),
          " Challenges\n- None yet\n".toList) := by
    unfold nextBody
    rw [splitFirst_skip _ (nChunk '1' t1) _ (hnoNlN '1' t1 (by decide) k1)]
    rw [splitFirst_miss nlHH '\n' _ (by unfold nChunk; simp [nlHH_eq, pfx])]
    rw [splitFirst_skip _ (nChunk '2' t2) _ (hnoNlN '2' t2 (by decide) k2)]
    rw [splitFirst_miss nlHH '\n' _ (by unfold nChunk; simp [nlHH_eq, pfx])]
    rw [splitFirst_skip _ (nChunk '3' t3) _ (hnoNlN '3' t3 (by decide) k3)]
    rw [splitFirst_miss nlHH '\n' _ (by unfold nChunk; simp [nlHH_eq, pfx])]
    rw [splitFirst_skip _ (nChunk '4' t4) _ (hnoNlN '4' t4 (by decide) k4)]
    rw [splitFirst_miss nlHH '\n' _ (by unfold nChunk; simp [nlHH_eq, pfx])]
    rw [splitFirst_skip _ (nChunk '5' t5) _ (hnoNlN '5' t5 (by decide) k5)]
    rw [splitFirst_miss nlHH '\n' _ (by simp [nlHH_eq, pfx])]
    rw [show ('\n' :: st6tail) = nlHH ++ " Challenges\n- None yet\n".toList from rfl]
    rw [splitFirst_hit]
    simp
  have hbodyN := sectionBody_eq _ _ _ _ _ _ hsN hsN2
  have hV : (nChunk '1' t1 ++ ('\n' :: (nChunk '2' t2 ++ ('\n' :: (nChunk '3' t3 ++
        ('\n' :: (nChunk '4' t4 ++ ('\n' :: (nChunk '5' t5 ++ ('\n' :: []))))))))))
      = (nChunk '1' t1 ++ ('\n' :: (nChunk '2' t2 ++ ('\n' :: (nChunk '3' t3 ++
        ('\n' :: (nChunk '4' t4 ++ ('\n' :: nChunk '5' t5)))))))) ++ ['\n'] := by
    simp [nChunk]
  have ht5ne : t5 ≠ [] := (tidy_spec t5 k5).1
  have hVne : (nChunk '1' t1 ++ ('\n' :: (nChunk '2' t2 ++ ('\n' :: (nChunk '3' t3 ++
      ('\n' :: (nChunk '4' t4 ++ ('\n' :: nChunk '5' t5)))))))) ≠ [] := by
    simp [nChunk]
  have hVh : isWS (nChunk '1' t1 ++ ('\n' :: (nChunk '2' t2 ++ ('\n' :: (nChunk '3' t3 ++
      ('\n' :: (nChunk '4' t4 ++ ('\n' :: nChunk '5' t5)))))))).headI = false := by
    rw [headI_append _ _ (by simp [nChunk])]
    rw [show (nChunk '1' t1).headI = '1' from rfl]
    decide
  have hVl : isWS (nChunk '1' t1 ++ ('\n' :: (nChunk '2' t2 ++ ('\n' :: (nChunk '3' t3 ++
      ('\n' :: (nChunk '4' t4 ++ ('\n' :: nChunk '5' t5)))))))).reverse.headI = false := by
    rw [show (nChunk '1' t1 ++ ('\n' :: (nChunk '2' t2 ++ ('\n' :: (nChunk '3' t3 ++
          ('\n' :: (nChunk '4' t4 ++ ('\n' :: nChunk '5' t5))))))))
        = (nChunk '1' t1 ++ ('\n' :: (nChunk '2' t2 ++ ('\n' :: (nChunk '3' t3 ++
          ('\n' :: (nChunk '4' t4 ++ ['\n']))))))) ++ (['5', '.', ' '] ++ t5)
        from by simp [nChunk]]
    rw [revHeadI_append_pre _ _ _ ht5ne]
    exact (tidy_spec t5 k5).2.2.1
  have htrimN : trim (nChunk '1' t1 ++ ('\n' :: (nChunk '2' t2 ++ ('\n' :: (nChunk '3' t3
        ++ ('\n' :: (nChunk '4' t4 ++ ('\n' :: (nChunk '5' t5 ++ ('\n' :: []))))))))))
      = nChunk '1' t1 ++ ('\n' :: (nChunk '2' t2 ++ ('\n' :: (nChunk '3' t3 ++
        ('\n' :: (nChunk '4' t4 ++ ('\n' :: nChunk '5' t5))))))) := by
    rw [hV]
    exact trim_snoc_nl _ hVne hVh hVl
  have hsplitN : splitNL (nChunk '1' t1 ++ ('\n' :: (nChunk '2' t2 ++ ('\n' ::
        (nChunk '3' t3 ++ ('\n' :: (nChunk '4' t4 ++ ('\n' :: nChunk '5' t5))))))))
      = [nChunk '1' t1, nChunk '2' t2, nChunk '3' t3, nChunk '4' t4, nChunk '5' t5] := by
    rw [splitNL_seg _ _ (hchN '1' t1 (by decide) k1),
      splitNL_seg _ _ (hchN '2' t2 (by decide) k2),
      splitNL_seg _ _ (hchN '3' t3 (by decide) k3),
      splitNL_seg _ _ (hchN '4' t4 (by decide) k4),
      splitNL_all _ (hchN '5' t5 (by decide) k5)]
  have hnum : numbered (nChunk '1' t1 ++ ('\n' :: (nChunk '2' t2 ++ ('\n' ::
        (nChunk '3' t3 ++ ('\n' :: (nChunk '4' t4 ++ ('\n' ::
          (nChunk '5' t5 ++ ('\n' :: []))))))))))
      = [t1, t2, t3, t4, t5] := by
    unfold numbered
    rw [htrimN, hsplitN]
    simp [List.filterMap,
      show stripNum (nChunk '1' t1) = some t1 from rfl,
      show stripNum (nChunk '2' t2) = some t2 from rfl,
      show stripNum (nChunk '3' t3) = some t3 from rfl,
      show stripNum (nChunk '4' t4) = some t4 from rfl,
      show stripNum (nChunk '5' t5) = some t5 from rfl,
      trim_tidy t1 k1, trim_tidy t2 k2, trim_tidy t3 k3, trim_tidy t4 k4,
      trim_tidy t5 k5]
  constructor
  · unfold completedInfoOf
    rw [hbodyC]
    show joinComma (lastTake 3 (bullets _)) = _
    rw [hbul]
    simp [lastTake, joinComma]
  · unfold nextInfoOf
    rw [hbodyN]
    show joinComma (List.take 3 (numbered _)) = _
    rw [hnum]
    simp [joinComma]

/-- Witness for C6 at concrete entries. -/
theorem C6_bounded_summaries_witness :
    completedInfoOf (st6 ['a'] ['b'] ['c'] ['d'] ['e'] ['p'] ['q'] ['r'] ['u'] ['v'])
      = ['c'] ++ (',' :: ' ' :: (['d'] ++ (',' :: ' ' :: ['e']))) ∧
    nextInfoOf (st6 ['a'] ['b'] ['c'] ['d'] ['e'] ['p'] ['q'] ['r'] ['u'] ['v'])
      = ['p'] ++ (',' :: ' ' :: (['q'] ++ (',' :: ' ' :: ['r']))) :=
  C6_bounded_summaries ['a'] ['b'] ['c'] ['d'] ['e'] ['p'] ['q'] ['r'] ['u'] ['v']
    (by decide) (by decide)

end RDK
